import Mathlib

/-!
Verification of the GraphMetrics/sketches-go DDSketch implementation
(sparse store, sketch composition, linearly-interpolated mapping).

The Go source is shallowly embedded:
* `float64` values flowing through comparisons are embedded as `Fl`,
  a rational number or NaN; every ordered comparison involving NaN is
  false, as in IEEE-754 / Go.
* `int` and `int32` counters are embedded as `Int` (overflow is not
  modelled; the claims under study are not about wrap-around).
* Go's `map[int]int32` is embedded as `GoMap`: an association list plus
  a nil flag. Reading a nil map yields the zero value; writing to a nil
  map is a runtime fault, embedded as `none`.
* Methods that can fault at runtime return `Option`; methods that return
  a Go `error` alongside leave it as `Option String` (`none` = nil error).
-/

/-- A Go `float64` as it behaves under the comparisons used by the
sketch: either NaN or an exact numeric value. -/
inductive Fl where
  | nan : Fl
  | val : ℚ → Fl
deriving DecidableEq

/-- Go `<` on float64: false whenever an operand is NaN. -/
def Fl.lt : Fl → Fl → Bool
  | .val a, .val b => decide (a < b)
  | _, _ => false

/-- Go `>` on float64: false whenever an operand is NaN. -/
def Fl.gt : Fl → Fl → Bool
  | .val a, .val b => decide (a > b)
  | _, _ => false

/-- Go `<=` on float64: false whenever an operand is NaN. -/
def Fl.le : Fl → Fl → Bool
  | .val a, .val b => decide (a ≤ b)
  | _, _ => false

/-- Go's `map[int]int32`: `isNil` marks the nil map (as left by
`NewSparseStore`, which never initializes `bins`); `entries` is the
key/value association (unique keys for any Go-reachable map). -/
structure GoMap where
  isNil : Bool
  entries : List (Int × Int)
deriving DecidableEq

/-- Map read `m[k]`: value of the entry at `k`, or the zero value `0`
when the key is absent (also on a nil map, which Go reads as empty). -/
def GoMap.lookup (m : GoMap) (k : Int) : Int :=
  match m.entries.find? (fun e => e.fst == k) with
  | some e => e.snd
  | none => 0

/-- `len(m)`: number of keys. -/
def GoMap.size (m : GoMap) : Nat := m.entries.length

/-- Update the entry at `k` to `v`, appending when absent. -/
def setEntries : List (Int × Int) → Int → Int → List (Int × Int)
  | [], k, v => [(k, v)]
  | e :: rest, k, v =>
    if e.fst == k then (k, v) :: rest else e :: setEntries rest k v

/-- Map assignment `m[k] = v`: a runtime fault (`none`) on a nil map. -/
def GoMap.set (m : GoMap) (k v : Int) : Option GoMap :=
  if m.isNil then none
  else some ⟨false, setEntries m.entries k v⟩

/-- `store.Bin`: an index together with a count. -/
structure Bin where
  index : Int
  count : Int
deriving DecidableEq

/-- `store.NewBin`: fails when the count is negative. -/
def NewBin (index count : Int) : Except String Bin :=
  if count < 0 then .error "count cannot be negative"
  else .ok ⟨index, count⟩

/-- Whether an `Except` result is the error case. -/
def exceptErr {α : Type} : Except String α → Bool
  | .error _ => true
  | .ok _ => false

/-- `store.SparseStore`: a map from index to count, the running total
count, and incrementally tracked extreme indices. -/
structure SparseStore where
  bins : GoMap
  count : Int
  minIndex : Int
  maxIndex : Int
deriving DecidableEq

/-- `store.NewSparseStore`: note that the Go constructor leaves `bins`
as the nil map (the `TODO: Initialize the bins capacity` is unresolved),
and seeds the extreme indices with `math.MaxInt32` / `math.MinInt32`. -/
def NewSparseStore : SparseStore :=
  ⟨⟨true, []⟩, 0, 2147483647, -2147483648⟩

/-- `SparseStore.AddWithCount`: zero count is a no-op; otherwise the
extremes are updated and the bin incremented. The map assignment faults
(`none`) when `bins` is the nil map. -/
def SparseStore.AddWithCount (s : SparseStore) (index count : Int) :
    Option SparseStore :=
  if count == 0 then some s
  else
    let maxI := if index > s.maxIndex then index else s.maxIndex
    let minI := if index < s.minIndex then index else s.minIndex
    match s.bins.set index (s.bins.lookup index + count) with
    | none => none
    | some b => some ⟨b, s.count + count, minI, maxI⟩

/-- `SparseStore.Add`. -/
def SparseStore.Add (s : SparseStore) (index : Int) : Option SparseStore :=
  s.AddWithCount index 1

/-- `SparseStore.AddBin`. -/
def SparseStore.AddBin (s : SparseStore) (bin : Bin) : Option SparseStore :=
  if bin.count == 0 then some s
  else s.AddWithCount bin.index bin.count

/-- `SparseStore.Copy`: a fresh (non-nil) map holding the same entries,
with count and extremes carried over. -/
def SparseStore.Copy (s : SparseStore) : SparseStore :=
  ⟨⟨false, s.bins.entries⟩, s.count, s.minIndex, s.maxIndex⟩

/-- `SparseStore.IsEmpty`. -/
def SparseStore.IsEmpty (s : SparseStore) : Bool := s.count == 0

/-- `SparseStore.TotalCount`. -/
def SparseStore.TotalCount (s : SparseStore) : Int := s.count

/-- `SparseStore.MaxIndex`: empty-store error. -/
def SparseStore.MaxIndexE (s : SparseStore) : Except String Int :=
  if s.IsEmpty then .error "MaxIndex of empty store is undefined"
  else .ok s.maxIndex

/-- `SparseStore.MinIndex`: empty-store error. -/
def SparseStore.MinIndexE (s : SparseStore) : Except String Int :=
  if s.IsEmpty then .error "MinIndex of empty store is undefined"
  else .ok s.minIndex

/-- Insertion into a sorted list of ints (`sort.Ints` result is the
unique ascending rearrangement, so any correct sort embeds it). -/
def insertSorted (x : Int) : List Int → List Int
  | [] => [x]
  | y :: ys => if x ≤ y then x :: y :: ys else y :: insertSorted x ys

/-- Ascending sort of a list of ints. -/
def sortInts : List Int → List Int
  | [] => []
  | x :: xs => insertSorted x (sortInts xs)

/-- The cumulative loop of `KeyAtRank`: walk the (sorted) keys, adding
each key's current count, returning the first key whose running total
strictly exceeds `rank` (compared after conversion to float64, exact
here), else the tracked `maxIndex`. -/
def keyAtRankLoop (s : SparseStore) (rank : ℚ) : List Int → Int → Int
  | [], _ => s.maxIndex
  | k :: rest, n =>
    let nn := n + s.bins.lookup k
    if (nn : ℚ) > rank then k else keyAtRankLoop s rank rest nn

/-- `SparseStore.KeyAtRank`: the Go code allocates
`keys := make([]int, len(s.bins))` — a slice already holding
`len(s.bins)` zeros — and then appends every key of the map, so the
sorted traversal walks `len(s.bins)` spurious `0` keys in addition to
the real keys. -/
def SparseStore.KeyAtRank (s : SparseStore) (rank : ℚ) : Int :=
  let keys := List.replicate s.bins.size 0 ++ s.bins.entries.map Prod.fst
  keyAtRankLoop s rank (sortInts keys) 0

/-- Add a list of `(index, count)` pairs into a map, entry-wise; a
fault (nil map) propagates. Embeds the merge loop
`for k, v := range o.bins { s.bins[k] += v }`. -/
def addEntries (m : GoMap) : List (Int × Int) → Option GoMap
  | [] => some m
  | e :: rest =>
    match m.set e.fst (m.lookup e.fst + e.snd) with
    | none => none
    | some m2 => addEntries m2 rest

/-- `SparseStore.MergeWith` (sparse-into-sparse path): no-op when the
other store is empty; otherwise widen the extremes, add the other's
bins entry-wise and add its total count. -/
def SparseStore.MergeWith (s o : SparseStore) : Option SparseStore :=
  if o.IsEmpty then some s
  else
    let minI := if o.minIndex < s.minIndex then o.minIndex else s.minIndex
    let maxI := if o.maxIndex > s.maxIndex then o.maxIndex else s.maxIndex
    match addEntries s.bins o.bins.entries with
    | none => none
    | some b => some ⟨b, s.count + o.count, minI, maxI⟩

/-- Sum of the counts of a list of entries. -/
def sumCounts : List (Int × Int) → Int
  | [] => 0
  | e :: rest => e.snd + sumCounts rest

/-- The cumulative count of all bins with index at most `k` (the
quantity `KeyAtRank` is specified against). -/
def SparseStore.cumCountLe (s : SparseStore) (k : Int) : Int :=
  sumCounts (s.bins.entries.filter (fun e => decide (e.fst ≤ k)))

/-- The operations of the Go `mapping.IndexMapping` interface, over an
abstract mapping type `M` (the sketch stores the mapping behind this
interface and only ever calls these methods). -/
structure MappingOps (M : Type) where
  equals : M → M → Bool
  index : M → Fl → Int
  value : M → Int → Fl
  relativeAccuracy : M → Fl
  minIndexableValue : M → Fl
  maxIndexableValue : M → Fl

/-- `ddsketch.DDSketch`: a mapping, a store, and the dedicated zero
count. -/
structure DDSketch (M : Type) where
  mapping : M
  store : SparseStore
  zeroCount : Int
deriving DecidableEq

/-- `ddsketch.NewDDSketch`: `zeroCount` starts at the zero value. -/
def NewDDSketch {M : Type} (mapping : M) (store : SparseStore) : DDSketch M :=
  ⟨mapping, store, 0⟩

/-- Replace the store of a sketch, keeping mapping and zero count. -/
def withStore {M : Type} (s : DDSketch M) (st : SparseStore) : DDSketch M :=
  ⟨s.mapping, st, s.zeroCount⟩

/-- Success outcome of a mutating sketch method: nil error and the post
state. -/
def okWith {M : Type} (s : DDSketch M) (st : SparseStore) :
    Option String × DDSketch M :=
  (none, withStore s st)

/-- `DDSketch.AddWithCount`. The result is `none` on a runtime fault
(nil bins map); otherwise a pair of the returned Go error (nil = no
error) and the receiver's post state. -/
def DDSketch.AddWithCount {M : Type} (ops : MappingOps M) (s : DDSketch M)
    (value : Fl) (count : Int) : Option (Option String × DDSketch M) :=
  if Fl.lt value (.val 0) || Fl.gt value (ops.maxIndexableValue s.mapping) then
    some (some "input value is outside the range that is tracked by the sketch", s)
  else if count < 0 then
    some (some "The count cannot be negative.", s)
  else if Fl.gt value (ops.minIndexableValue s.mapping) then
    match s.store.AddWithCount (ops.index s.mapping value) count with
    | none => none
    | some st => some (okWith s st)
  else
    some (none, ⟨s.mapping, s.store, s.zeroCount + count⟩)

/-- `DDSketch.Add`. -/
def DDSketch.Add {M : Type} (ops : MappingOps M) (s : DDSketch M)
    (value : Fl) : Option (Option String × DDSketch M) :=
  DDSketch.AddWithCount ops s value 1

/-- `DDSketch.Copy`: the Go struct literal carries over the mapping by
reference and a copy of the store; `zeroCount` is not listed and so is
the zero value `0`. -/
def DDSketch.Copy {M : Type} (s : DDSketch M) : DDSketch M :=
  ⟨s.mapping, s.store.Copy, 0⟩

/-- `DDSketch.GetCount`. -/
def DDSketch.GetCount {M : Type} (s : DDSketch M) : Int :=
  s.zeroCount + s.store.TotalCount

/-- `DDSketch.IsEmpty`. -/
def DDSketch.IsEmpty {M : Type} (s : DDSketch M) : Bool :=
  s.zeroCount == 0 && s.store.IsEmpty

/-- `DDSketch.GetValueAtQuantile`. The quantile and the computed rank
are embedded as exact rationals. -/
def DDSketch.GetValueAtQuantile {M : Type} (ops : MappingOps M)
    (s : DDSketch M) (quantile : ℚ) : Except String Fl :=
  if quantile < 0 ∨ quantile > 1 then
    .error "The quantile must be between 0 and 1."
  else
    let count := s.GetCount
    if count == 0 then .error "no such element exists"
    else
      let rank : ℚ := quantile * ((count : ℚ) - 1)
      if rank < (s.zeroCount : ℚ) then .ok (.val 0)
      else .ok (ops.value s.mapping (s.store.KeyAtRank (rank - (s.zeroCount : ℚ))))

/-- Post state of a successful sketch merge: the merged store and the
summed zero counts. -/
def mergePost {M : Type} (s other : DDSketch M) (st : SparseStore) :
    Option String × DDSketch M :=
  (none, ⟨s.mapping, st, s.zeroCount + other.zeroCount⟩)

/-- `DDSketch.MergeWith`: mapping equality gate, then store merge and
zero-count sum. `none` on a runtime fault during the store merge. -/
def DDSketch.MergeWith {M : Type} (ops : MappingOps M) (s other : DDSketch M) :
    Option (Option String × DDSketch M) :=
  if !(ops.equals s.mapping other.mapping) then
    some (some "Cannot merge sketches with different index mappings.", s)
  else
    match s.store.MergeWith other.store with
    | none => none
    | some st => some (mergePost s other st)

/-- Whether a mutating sketch method's outcome is a returned Go error. -/
def outcomeErr {M : Type} : Option (Option String × DDSketch M) → Bool
  | some (some _, _) => true
  | _ => false

/-- The receiver's post state of a mutating sketch method's outcome
(`none` when the method faulted). -/
def outcomeState {M : Type} : Option (Option String × DDSketch M) →
    Option (DDSketch M)
  | some (_, s) => some s
  | none => none

/-- `GetCount` of the post state of a mutating sketch method's outcome
(`none` when the method faulted). -/
def outcomeCount {M : Type} : Option (Option String × DDSketch M) → Option Int
  | some (_, s) => some s.GetCount
  | none => none

/-- `mapping.LinearlyInterpolatedMapping`: the float64 fields are
embedded as real numbers. -/
structure LinearlyInterpolatedMapping where
  relativeAccuracy : ℝ
  multiplier : ℝ
  normalizedIndexOffset : ℝ

/-- `approximateLog`: exponent plus significand-plus-one of the IEEE-754
representation; for a positive normal value `x` the exponent field is
`⌊log₂ x⌋` and the significand-plus-one is `x / 2 ^ ⌊log₂ x⌋`. -/
noncomputable def approximateLog (x : ℝ) : ℝ :=
  (⌊Real.logb 2 x⌋ : ℝ) + x / 2 ^ ⌊Real.logb 2 x⌋

/-- `mapping.NewLinearlyInterpolatedMapping`: rejects a relative
accuracy outside `(0,1)`; the multiplier is `1 / Log1p(2α/(1-α))`
(natural `log1p`), and the offset is left at the zero value. -/
noncomputable def NewLinearlyInterpolatedMapping (relativeAccuracy : ℝ) :
    Option LinearlyInterpolatedMapping :=
  if relativeAccuracy ≤ 0 ∨ relativeAccuracy ≥ 1 then none
  else some ⟨relativeAccuracy,
    1 / Real.log (1 + 2 * relativeAccuracy / (1 - relativeAccuracy)), 0⟩

/-- `mapping.NewLinearlyInterpolatedMappingWithGamma`: rejects
`gamma ≤ 1`; derives the relative accuracy as
`1 - 2/(1 + exp(log₂ gamma))`, the multiplier as `1 / log₂ gamma`, and
the offset as `indexOffset - approximateLog(1) * multiplier`. -/
noncomputable def NewLinearlyInterpolatedMappingWithGamma
    (gamma indexOffset : ℝ) : Option LinearlyInterpolatedMapping :=
  if gamma ≤ 1 then none
  else some ⟨1 - 2 / (1 + Real.exp (Real.logb 2 gamma)),
    1 / Real.logb 2 gamma,
    indexOffset - approximateLog 1 * (1 / Real.logb 2 gamma)⟩

/-- `mapping.withinTolerance`, rendered as the two guarded branches of
the Go conditional: when either argument is zero both must be at most
the tolerance in absolute value, otherwise the difference is compared
against the tolerance scaled by the larger magnitude. -/
def withinTolerance (x y tolerance : ℝ) : Prop :=
  ((x = 0 ∨ y = 0) → |x| ≤ tolerance ∧ |y| ≤ tolerance) ∧
  (¬(x = 0 ∨ y = 0) → |x - y| ≤ tolerance * max |x| |y|)

/-- `LinearlyInterpolatedMapping.Equals` (both operands of the concrete
type, so the type assertion succeeds): multiplier and normalized index
offset each within tolerance `1e-12`. -/
def LinearlyInterpolatedMapping.Equals
    (m o : LinearlyInterpolatedMapping) : Prop :=
  withinTolerance m.multiplier o.multiplier 1e-12 ∧
  withinTolerance m.normalizedIndexOffset o.normalizedIndexOffset 1e-12

/-- The sketch states reachable from a newly constructed sketch by
successful (no returned error, no runtime fault) `Add` / `AddWithCount`
and `MergeWith` calls. -/
inductive Reachable {M : Type} (ops : MappingOps M) : DDSketch M → Prop where
  | new (m : M) : Reachable ops (NewDDSketch m NewSparseStore)
  | add (s s' : DDSketch M) (v : Fl) (c : Int) :
      Reachable ops s → DDSketch.AddWithCount ops s v c = some (none, s') →
      Reachable ops s'
  | merge (s o s' : DDSketch M) :
      Reachable ops s → Reachable ops o →
      DDSketch.MergeWith ops s o = some (none, s') → Reachable ops s'

/-- A trivial instantiation of the mapping interface, for concrete
evaluations: every value maps to index 3, indices map back to their
numeric value, and the indexable range is `[1, 1000]`. -/
def unitOps : MappingOps Unit where
  equals := fun _ _ => true
  index := fun _ _ => 3
  value := fun _ i => Fl.val (i : ℚ)
  relativeAccuracy := fun _ => Fl.val 0
  minIndexableValue := fun _ => Fl.val 1
  maxIndexableValue := fun _ => Fl.val 1000

/-- A well-formed empty sparse store (as `Copy` of a store produces: an
initialized, non-nil bins map). -/
def emptyWFStore : SparseStore := NewSparseStore.Copy

/-- A sparse store holding one observation in bin `0` and one in bin
`5` (as two `Add` calls on an initialized store produce). -/
def exKeyStore : SparseStore := ⟨⟨false, [(0, 1), (5, 1)]⟩, 2, 0, 5⟩

/-- Claim C1: `KeyAtRank` is specified to return the smallest bin index
whose ascending cumulative count strictly exceeds the rank. On the
store with bins `{0 ↦ 1, 5 ↦ 1}` at rank `1`, the cumulative count at
index `0` is `1`, which does not exceed `1`, and the total count `2`
exceeds the rank, so the specified result is `5`; the code returns `0`,
because the key slice is allocated with `make([]int, len(bins))` and the
spurious zero keys make bin `0`'s count accumulate once per map entry. -/
theorem KeyAtRank_counts_zero_bin_repeatedly :
    exKeyStore.KeyAtRank 1 = 0 ∧
    exKeyStore.cumCountLe 0 = 1 ∧
    exKeyStore.cumCountLe 5 = 2 ∧
    exKeyStore.TotalCount = 2 := by decide

/-- The sketch state after one `Add(0)` on a default-constructed
sketch: the zero count is `1` and the store is untouched. -/
def skZ : DDSketch Unit := ⟨(), NewSparseStore, 1⟩

/-- Claim C2: `Copy` is specified to preserve `zeroCount`, but the Go
struct literal omits the field, so the copy's `zeroCount` is `0`: on a
sketch holding one zero-valued observation (`GetCount() = 1`), the copy
reports `GetCount() = 0`. -/
theorem Copy_drops_zeroCount :
    DDSketch.AddWithCount unitOps (NewDDSketch () NewSparseStore) (Fl.val 0) 1
      = some (none, skZ) ∧
    skZ.zeroCount = 1 ∧ (DDSketch.Copy skZ).zeroCount = 0 ∧
    skZ.GetCount = 1 ∧ (DDSketch.Copy skZ).GetCount = 0 := by decide

/-- Claim C6 (counterexample): the store-level `AddWithCount` has no
error return and performs no negativity check: adding count `-1` at
index `3` to an initialized empty store succeeds and drives the total
count to `-1`. -/
theorem store_AddWithCount_accepts_negative_count :
    emptyWFStore.AddWithCount 3 (-1)
      = some ⟨⟨false, [(3, -1)]⟩, -1, 3, 3⟩ := by decide

/-- Claim C8: `NewSparseStore` never initializes the `bins` map, so the
first insertion assigns into a nil map — a runtime fault — instead of
yielding a store of total count `1`. -/
theorem NewSparseStore_Add_faults :
    NewSparseStore.Add 0 = none ∧ NewSparseStore.bins.isNil = true := by
  decide

theorem approximateLog_one : approximateLog 1 = 1 := by
  simp [approximateLog, Real.logb_one]

/-- `withinTolerance x x tol` holds for a non-negative tolerance. -/
theorem withinTolerance_self (x tolerance : ℝ) (h : 0 ≤ tolerance) :
    withinTolerance x x tolerance := by
  constructor
  · rintro (rfl | rfl) <;> simp [h]
  · intro hne
    have : ¬ x = 0 := fun hx => hne (Or.inl hx)
    have hx : 0 < |x| := abs_pos.mpr this
    have : |x - x| = 0 := by simp
    rw [this]
    positivity

/-- Evaluating `NewLinearlyInterpolatedMapping` at the relative
accuracy `1 - 2/(1 + exp L)` for `L > 0`: the accuracy is in `(0,1)`
and the multiplier collapses to `1 / L`. -/
theorem NewLIM_from_exp (L : ℝ) (hL : 0 < L) :
    NewLinearlyInterpolatedMapping (1 - 2 / (1 + Real.exp L))
      = some ⟨1 - 2 / (1 + Real.exp L), 1 / L, 0⟩ := by
  have hE1 : 1 < Real.exp L := Real.one_lt_exp_iff.mpr hL
  have hEpos : (0 : ℝ) < 1 + Real.exp L := by linarith
  have hra0 : 0 < 1 - 2 / (1 + Real.exp L) := by
    have : 2 / (1 + Real.exp L) < 1 := by
      rw [div_lt_one hEpos]; linarith
    linarith
  have hra1 : 1 - 2 / (1 + Real.exp L) < 1 := by
    have : 0 < 2 / (1 + Real.exp L) := by positivity
    linarith
  rw [NewLinearlyInterpolatedMapping, if_neg (by push_neg; constructor <;> linarith)]
  have harg : 1 + 2 * (1 - 2 / (1 + Real.exp L)) /
      (1 - (1 - 2 / (1 + Real.exp L))) = Real.exp L := by
    have hne : (1 : ℝ) + Real.exp L ≠ 0 := ne_of_gt hEpos
    field_simp
    ring
  rw [harg, Real.log_exp]

/-- Evaluating `NewLinearlyInterpolatedMappingWithGamma` for
`gamma > 1`: `approximateLog 1 = 1`, so the offset is
`indexOffset - 1 / log₂ gamma`. -/
theorem NewLIMWithGamma_eval (gamma indexOffset : ℝ) (hg : 1 < gamma) :
    NewLinearlyInterpolatedMappingWithGamma gamma indexOffset
      = some ⟨1 - 2 / (1 + Real.exp (Real.logb 2 gamma)),
          1 / Real.logb 2 gamma,
          indexOffset - 1 / Real.logb 2 gamma⟩ := by
  rw [NewLinearlyInterpolatedMappingWithGamma, if_neg (not_le.mpr hg)]
  rw [approximateLog_one]
  norm_num

/-- The mapping `NewLinearlyInterpolatedMapping(1/3)` produces. -/
noncomputable def limFromAccuracyThird : LinearlyInterpolatedMapping :=
  ⟨1 / 3, 1 / Real.log 2, 0⟩

/-- The mapping `NewLinearlyInterpolatedMappingWithGamma(2, 0)`
produces; `gamma = 2` is the gamma derived from `alpha = 1/3`. -/
noncomputable def limFromGammaTwo : LinearlyInterpolatedMapping :=
  ⟨1 - 2 / (1 + Real.exp 1), 1, -1⟩

/-- Claim C7 (counterexample): at `alpha = 1/3` the derived gamma is
`(1 + 1/3)/(1 - 1/3) = 2`, and the two constructions do not compare
equal under `Equals`: the first leaves the normalized index offset at
`0` while the second sets it to `-1` (and the multipliers differ by a
factor `log 2`), far outside the `1e-12` tolerance. -/
theorem lim_gamma_zero_offset_not_Equals :
    NewLinearlyInterpolatedMapping (1 / 3) = some limFromAccuracyThird ∧
    NewLinearlyInterpolatedMappingWithGamma ((1 + 1 / 3) / (1 - 1 / 3)) 0
      = some limFromGammaTwo ∧
    ¬ limFromAccuracyThird.Equals limFromGammaTwo := by
  refine ⟨?_, ?_, ?_⟩
  · rw [NewLinearlyInterpolatedMapping, if_neg (by norm_num)]
    have harg : 1 + 2 * (1 / 3 : ℝ) / (1 - 1 / 3) = 2 := by norm_num
    rw [harg, limFromAccuracyThird]
  · have hg : ((1 + 1 / 3 : ℝ) / (1 - 1 / 3)) = 2 := by norm_num
    rw [hg, NewLIMWithGamma_eval 2 0 one_lt_two,
      Real.logb_self_eq_one one_lt_two]
    rw [limFromGammaTwo]
    norm_num
  · rintro ⟨-, hoff⟩
    have := (hoff.1 (Or.inl rfl)).2
    simp only [limFromGammaTwo] at this
    norm_num at this

/-- Claim C7 (amended): the relationship the code (and its test suite)
actually satisfies: for `gamma > 1`, the mapping built from the
relative accuracy `1 - 2/(1 + exp(log₂ gamma))` and the mapping built
via `NewLinearlyInterpolatedMappingWithGamma(gamma, 1/log₂ gamma)`
compare equal under `Equals` (multiplier and normalized index offset
within tolerance `1e-12`; both pairs in fact coincide exactly). -/
theorem lim_equivalence_amended (gamma : ℝ)
    (m1 m2 : LinearlyInterpolatedMapping) (hg : 1 < gamma)
    (h1 : NewLinearlyInterpolatedMapping
        (1 - 2 / (1 + Real.exp (Real.logb 2 gamma))) = some m1)
    (h2 : NewLinearlyInterpolatedMappingWithGamma gamma
        (1 / Real.logb 2 gamma) = some m2) :
    m1.Equals m2 := by
  have hL : 0 < Real.logb 2 gamma := Real.logb_pos one_lt_two hg
  rw [NewLIM_from_exp _ hL] at h1
  rw [NewLIMWithGamma_eval gamma _ hg] at h2
  have hm1 := (Option.some.inj h1).symm
  have hm2 := (Option.some.inj h2).symm
  subst hm1
  subst hm2
  have htol : (0 : ℝ) ≤ 1e-12 := by norm_num
  constructor
  · exact withinTolerance_self _ _ htol
  · show withinTolerance 0 (1 / Real.logb 2 gamma - 1 / Real.logb 2 gamma) _
    rw [sub_self]
    exact withinTolerance_self 0 _ htol

/-- The mapping the amended-claim witness builds from the derived
relative accuracy at `gamma = 2`. -/
noncomputable def limG2a : LinearlyInterpolatedMapping :=
  ⟨1 - 2 / (1 + Real.exp (Real.logb 2 2)), 1 / Real.logb 2 2, 0⟩

/-- The mapping the amended-claim witness builds via `WithGamma` at
`gamma = 2` with index offset `1/log₂ 2`. -/
noncomputable def limG2b : LinearlyInterpolatedMapping :=
  ⟨1 - 2 / (1 + Real.exp (Real.logb 2 2)), 1 / Real.logb 2 2,
    1 / Real.logb 2 2 - 1 / Real.logb 2 2⟩

theorem lim_equivalence_amended_witness :
    (1 : ℝ) < 2 ∧
    NewLinearlyInterpolatedMapping
        (1 - 2 / (1 + Real.exp (Real.logb 2 2))) = some limG2a ∧
    NewLinearlyInterpolatedMappingWithGamma 2 (1 / Real.logb 2 2)
      = some limG2b ∧
    limG2a.Equals limG2b := by
  have hL : (0 : ℝ) < Real.logb 2 2 := by
    rw [Real.logb_self_eq_one one_lt_two]; norm_num
  have hA : NewLinearlyInterpolatedMapping
      (1 - 2 / (1 + Real.exp (Real.logb 2 2))) = some limG2a :=
    NewLIM_from_exp _ hL
  have hB : NewLinearlyInterpolatedMappingWithGamma 2 (1 / Real.logb 2 2)
      = some limG2b :=
    NewLIMWithGamma_eval 2 _ one_lt_two
  exact ⟨one_lt_two, hA, hB, lim_equivalence_amended 2 limG2a limG2b one_lt_two hA hB⟩

/-- Claim C9: adding NaN with a non-negative count returns no error and
increments `zeroCount` by the count: NaN satisfies none of `value < 0`,
`value > MaxIndexableValue()`, `value > MinIndexableValue()`, so it
falls into the zero-count branch rather than being rejected. -/
theorem AddWithCount_nan_counts_as_zero {M : Type} (ops : MappingOps M)
    (s : DDSketch M) (c : Int) (hc : 0 ≤ c) :
    DDSketch.AddWithCount ops s Fl.nan c
      = some (none, ⟨s.mapping, s.store, s.zeroCount + c⟩) := by
  have hnot : ¬ c < 0 := by omega
  rw [DDSketch.AddWithCount,
    show Fl.lt Fl.nan (Fl.val 0) = false from rfl,
    show Fl.gt Fl.nan (ops.maxIndexableValue s.mapping) = false from rfl,
    show Fl.gt Fl.nan (ops.minIndexableValue s.mapping) = false from rfl]
  simp [hnot]

theorem AddWithCount_nan_counts_as_zero_witness :
    (0 : Int) ≤ 2 ∧
    DDSketch.AddWithCount unitOps (NewDDSketch () NewSparseStore) Fl.nan 2
      = some (none, ⟨(), NewSparseStore, 0 + 2⟩) :=
  ⟨by decide, AddWithCount_nan_counts_as_zero unitOps (NewDDSketch () NewSparseStore) 2 (by decide)⟩

theorem SparseStore.AddWithCount_of_wf (s : SparseStore) (i c : Int)
    (hwf : s.bins.isNil = false) (hc : c ≠ 0) :
    s.AddWithCount i c
      = some ⟨⟨false, setEntries s.bins.entries i (s.bins.lookup i + c)⟩,
          s.count + c,
          if i < s.minIndex then i else s.minIndex,
          if i > s.maxIndex then i else s.maxIndex⟩ := by
  rw [SparseStore.AddWithCount, if_neg (by simpa using hc)]
  simp only [GoMap.set, hwf, Bool.false_eq_true, if_false]

theorem SparseStore.AddWithCount_ne_none (s : SparseStore) (i c : Int)
    (hwf : s.bins.isNil = false) : s.AddWithCount i c ≠ none := by
  by_cases hc : c = 0
  · subst hc
    rw [SparseStore.AddWithCount, if_pos (by decide)]
    exact Option.some_ne_none s
  · rw [SparseStore.AddWithCount_of_wf s i c hwf hc]
    exact Option.some_ne_none _

theorem Fl.not_gt_and_le (x y : Fl) (h1 : Fl.gt x y = true)
    (h2 : Fl.le x y = true) : False := by
  cases x <;> cases y <;> simp [Fl.gt, Fl.le] at h1 h2
  exact absurd h2 (not_le.mpr h1)

/-- Claim C3: sketch-level `AddWithCount` returns an error exactly when
`value < 0`, `value > MaxIndexableValue()` or `count < 0` (float
comparisons, so NaN triggers none of them); on error the receiver is
unchanged; on success a value at most `MinIndexableValue()` increments
`zeroCount` by the count, and a value above it delegates to the store at
`mapping.Index(value)`. The store's bins map is assumed initialized
(`NewSparseStore` violates this; see the claim about it). -/
theorem AddWithCount_error_iff_and_success {M : Type} (ops : MappingOps M)
    (s : DDSketch M) (v : Fl) (c : Int)
    (hwf : s.store.bins.isNil = false) :
    (outcomeErr (DDSketch.AddWithCount ops s v c) = true ↔
      (Fl.lt v (Fl.val 0) = true ∨
       Fl.gt v (ops.maxIndexableValue s.mapping) = true ∨ c < 0)) ∧
    DDSketch.AddWithCount ops s v c ≠ none ∧
    (outcomeErr (DDSketch.AddWithCount ops s v c) = true →
      outcomeState (DDSketch.AddWithCount ops s v c) = some s) ∧
    (outcomeErr (DDSketch.AddWithCount ops s v c) = false →
      Fl.le v (ops.minIndexableValue s.mapping) = true →
      DDSketch.AddWithCount ops s v c
        = some (none, ⟨s.mapping, s.store, s.zeroCount + c⟩)) ∧
    (outcomeErr (DDSketch.AddWithCount ops s v c) = false →
      Fl.gt v (ops.minIndexableValue s.mapping) = true →
      DDSketch.AddWithCount ops s v c
        = (s.store.AddWithCount (ops.index s.mapping v) c).map (okWith s)) := by
  by_cases h1 : (Fl.lt v (Fl.val 0) || Fl.gt v (ops.maxIndexableValue s.mapping)) = true
  · have key : DDSketch.AddWithCount ops s v c
        = some (some "input value is outside the range that is tracked by the sketch", s) := by
      rw [DDSketch.AddWithCount]
      simp [h1]
    rw [key]
    have hor : Fl.lt v (Fl.val 0) = true ∨
        Fl.gt v (ops.maxIndexableValue s.mapping) = true := by simpa using h1
    refine ⟨?_, by simp, ?_, ?_, ?_⟩
    · simp only [outcomeErr]
      exact ⟨fun _ => hor.elim Or.inl (fun h => Or.inr (Or.inl h)), fun _ => trivial⟩
    · intro _
      rfl
    · intro h
      simp [outcomeErr] at h
    · intro h
      simp [outcomeErr] at h
  · have h1f : (Fl.lt v (Fl.val 0) || Fl.gt v (ops.maxIndexableValue s.mapping)) = false :=
      Bool.not_eq_true _ ▸ Bool.of_not_eq_true h1
    have hnor : ¬ (Fl.lt v (Fl.val 0) = true ∨
        Fl.gt v (ops.maxIndexableValue s.mapping) = true) := by
      simpa using h1
    by_cases h2 : c < 0
    · have key : DDSketch.AddWithCount ops s v c
          = some (some "The count cannot be negative.", s) := by
        rw [DDSketch.AddWithCount]
        simp [h1f, h2]
      rw [key]
      refine ⟨?_, by simp, ?_, ?_, ?_⟩
      · simp only [outcomeErr]
        exact ⟨fun _ => Or.inr (Or.inr h2), fun _ => trivial⟩
      · intro _
        rfl
      · intro h
        simp [outcomeErr] at h
      · intro h
        simp [outcomeErr] at h
    · by_cases h3 : Fl.gt v (ops.minIndexableValue s.mapping) = true
      · have key : DDSketch.AddWithCount ops s v c
            = (s.store.AddWithCount (ops.index s.mapping v) c).map (okWith s) := by
          rw [DDSketch.AddWithCount]
          simp only [h1f, Bool.false_eq_true, if_false, h2, h3, if_true]
          cases s.store.AddWithCount (ops.index s.mapping v) c <;> simp
        rw [key]
        obtain ⟨st, hst⟩ :=
          Option.ne_none_iff_exists'.mp
            (SparseStore.AddWithCount_ne_none s.store (ops.index s.mapping v) c hwf)
        rw [hst]
        refine ⟨?_, by simp, ?_, ?_, ?_⟩
        · simp only [Option.map, outcomeErr, okWith]
          constructor
          · intro h
            simp at h
          · rintro (h | h | h)
            · exact absurd (Or.inl h) hnor
            · exact absurd (Or.inr h) hnor
            · exact absurd h h2
        · intro h
          simp [outcomeErr, okWith] at h
        · intro _ hle
          exact absurd hle (fun hle => (Fl.not_gt_and_le v _ h3 hle).elim)
        · intro _ _
          rfl
      · have h3f : Fl.gt v (ops.minIndexableValue s.mapping) = false :=
          Bool.not_eq_true _ ▸ Bool.of_not_eq_true h3
        have key : DDSketch.AddWithCount ops s v c
            = some (none, ⟨s.mapping, s.store, s.zeroCount + c⟩) := by
          rw [DDSketch.AddWithCount]
          simp [h1f, h2, h3f]
        rw [key]
        refine ⟨?_, by simp, ?_, ?_, ?_⟩
        · simp only [outcomeErr]
          constructor
          · intro h
            simp at h
          · rintro (h | h | h)
            · exact absurd (Or.inl h) hnor
            · exact absurd (Or.inr h) hnor
            · exact absurd h h2
        · intro h
          simp [outcomeErr] at h
        · intro _ _
          rfl
        · intro _ hgt
          exact absurd hgt (by simp [h3f])

/-- A sketch over an initialized (copied) empty store. -/
def skWF : DDSketch Unit := NewDDSketch () emptyWFStore

theorem AddWithCount_error_iff_and_success_witness :
    skWF.store.bins.isNil = false ∧
    ((outcomeErr (DDSketch.AddWithCount unitOps skWF (Fl.val 5) 2) = true ↔
      (Fl.lt (Fl.val 5) (Fl.val 0) = true ∨
       Fl.gt (Fl.val 5) (unitOps.maxIndexableValue skWF.mapping) = true ∨
       (2 : Int) < 0)) ∧
     DDSketch.AddWithCount unitOps skWF (Fl.val 5) 2 ≠ none ∧
     (outcomeErr (DDSketch.AddWithCount unitOps skWF (Fl.val 5) 2) = true →
       outcomeState (DDSketch.AddWithCount unitOps skWF (Fl.val 5) 2)
         = some skWF) ∧
     (outcomeErr (DDSketch.AddWithCount unitOps skWF (Fl.val 5) 2) = false →
       Fl.le (Fl.val 5) (unitOps.minIndexableValue skWF.mapping) = true →
       DDSketch.AddWithCount unitOps skWF (Fl.val 5) 2
         = some (none, ⟨skWF.mapping, skWF.store, skWF.zeroCount + 2⟩)) ∧
     (outcomeErr (DDSketch.AddWithCount unitOps skWF (Fl.val 5) 2) = false →
       Fl.gt (Fl.val 5) (unitOps.minIndexableValue skWF.mapping) = true →
       DDSketch.AddWithCount unitOps skWF (Fl.val 5) 2
         = (skWF.store.AddWithCount (unitOps.index skWF.mapping (Fl.val 5)) 2).map
             (okWith skWF))) :=
  ⟨rfl, AddWithCount_error_iff_and_success unitOps skWF (Fl.val 5) 2 rfl⟩

/-- Claim C4: `GetValueAtQuantile` returns an error exactly when the
quantile is outside `[0,1]` or the total count is zero; otherwise, with
`rank = q * (GetCount() - 1)`, it returns `0` when `rank < zeroCount`
and `Value(KeyAtRank(rank - zeroCount))` when `rank ≥ zeroCount`. -/
theorem GetValueAtQuantile_spec {M : Type} (ops : MappingOps M)
    (s : DDSketch M) (q : ℚ) :
    (exceptErr (DDSketch.GetValueAtQuantile ops s q) = true ↔
      (q < 0 ∨ q > 1 ∨ s.GetCount = 0)) ∧
    (¬ q < 0 → ¬ q > 1 → s.GetCount ≠ 0 →
      (q * ((s.GetCount : ℚ) - 1) < (s.zeroCount : ℚ) →
        DDSketch.GetValueAtQuantile ops s q = .ok (Fl.val 0)) ∧
      (¬ q * ((s.GetCount : ℚ) - 1) < (s.zeroCount : ℚ) →
        DDSketch.GetValueAtQuantile ops s q
          = .ok (ops.value s.mapping
              (s.store.KeyAtRank
                (q * ((s.GetCount : ℚ) - 1) - (s.zeroCount : ℚ)))))) := by
  by_cases h1 : q < 0 ∨ q > 1
  · have key : DDSketch.GetValueAtQuantile ops s q
        = .error "The quantile must be between 0 and 1." := by
      rw [DDSketch.GetValueAtQuantile, if_pos h1]
    rw [key]
    refine ⟨⟨fun _ => h1.elim Or.inl (fun h => Or.inr (Or.inl h)), fun _ => rfl⟩, ?_⟩
    intro hq0 hq1 _
    exact absurd h1 (by tauto)
  · by_cases h2 : s.GetCount = 0
    · have key : DDSketch.GetValueAtQuantile ops s q
          = .error "no such element exists" := by
        rw [DDSketch.GetValueAtQuantile, if_neg h1]
        simp [h2]
      rw [key]
      exact ⟨⟨fun _ => Or.inr (Or.inr h2), fun _ => rfl⟩,
        fun _ _ hc => absurd h2 hc⟩
    · by_cases h3 : q * ((s.GetCount : ℚ) - 1) < (s.zeroCount : ℚ)
      · have key : DDSketch.GetValueAtQuantile ops s q = .ok (Fl.val 0) := by
          rw [DDSketch.GetValueAtQuantile, if_neg h1]
          simp only [beq_iff_eq, h2, if_false]
          rw [if_pos h3]
        rw [key]
        refine ⟨⟨fun h => by simp [exceptErr] at h, fun hd => ?_⟩, ?_⟩
        · rcases hd with h | h | h
          · exact absurd (Or.inl h) h1
          · exact absurd (Or.inr h) h1
          · exact absurd h h2
        · exact fun _ _ _ => ⟨fun _ => rfl, fun hn => absurd h3 hn⟩
      · have key : DDSketch.GetValueAtQuantile ops s q
            = .ok (ops.value s.mapping
                (s.store.KeyAtRank
                  (q * ((s.GetCount : ℚ) - 1) - (s.zeroCount : ℚ)))) := by
          rw [DDSketch.GetValueAtQuantile, if_neg h1]
          simp only [beq_iff_eq, h2, if_false]
          rw [if_neg h3]
        rw [key]
        refine ⟨⟨fun h => by simp [exceptErr] at h, fun hd => ?_⟩, ?_⟩
        · rcases hd with h | h | h
          · exact absurd (Or.inl h) h1
          · exact absurd (Or.inr h) h1
          · exact absurd h h2
        · exact fun _ _ _ => ⟨fun hr => absurd hr h3, fun _ => rfl⟩

theorem addEntries_of_wf (l : List (Int × Int)) (m : GoMap)
    (h : m.isNil = false) : ∃ m2, addEntries m l = some m2 := by
  induction l generalizing m with
  | nil => exact ⟨m, rfl⟩
  | cons e rest ih =>
    have hset : m.set e.fst (m.lookup e.fst + e.snd)
        = some ⟨false, setEntries m.entries e.fst (m.lookup e.fst + e.snd)⟩ := by
      simp [GoMap.set, h]
    simp only [addEntries, hset]
    exact ih _ rfl

theorem SparseStore.AddWithCount_count (s st : SparseStore) (i c : Int)
    (h : s.AddWithCount i c = some st) : st.count = s.count + c := by
  rw [SparseStore.AddWithCount] at h
  by_cases hc : c = 0
  · subst hc
    rw [if_pos (by decide)] at h
    obtain rfl := Option.some.inj h
    omega
  · rw [if_neg (by simpa using hc)] at h
    cases hset : s.bins.set i (s.bins.lookup i + c) with
    | none =>
      rw [hset] at h
      simp at h
    | some b =>
      rw [hset] at h
      obtain rfl := Option.some.inj h
      rfl

theorem SparseStore.MergeWith_count (s o st : SparseStore)
    (h : s.MergeWith o = some st) : st.count = s.count + o.count := by
  rw [SparseStore.MergeWith] at h
  by_cases he : o.IsEmpty = true
  · rw [if_pos he] at h
    obtain rfl := Option.some.inj h
    have : o.count = 0 := by simpa [SparseStore.IsEmpty] using he
    omega
  · rw [if_neg he] at h
    cases hae : addEntries s.bins o.bins.entries with
    | none =>
      rw [hae] at h
      simp at h
    | some b =>
      rw [hae] at h
      obtain rfl := Option.some.inj h
      rfl

/-- Claim C5: merging a sketch whose mapping compares equal succeeds
(no returned error, no runtime fault given an initialized receiver
store), and afterwards the receiver's `GetCount()` is the sum of both
sketches' counts before the merge. -/
theorem MergeWith_adds_counts {M : Type} (ops : MappingOps M)
    (A B : DDSketch M) (hEq : ops.equals A.mapping B.mapping = true)
    (hwf : A.store.bins.isNil = false) :
    outcomeErr (DDSketch.MergeWith ops A B) = false ∧
    outcomeCount (DDSketch.MergeWith ops A B)
      = some (A.GetCount + B.GetCount) := by
  rw [DDSketch.MergeWith, hEq]
  simp only [Bool.not_true, Bool.false_eq_true, if_false]
  have hmerge : ∃ st, A.store.MergeWith B.store = some st := by
    rw [SparseStore.MergeWith]
    by_cases he : B.store.IsEmpty = true
    · rw [if_pos he]
      exact ⟨A.store, rfl⟩
    · rw [if_neg he]
      obtain ⟨m2, hm2⟩ := addEntries_of_wf B.store.bins.entries A.store.bins hwf
      rw [hm2]
      exact ⟨_, rfl⟩
  obtain ⟨st, hst⟩ := hmerge
  have hcount := SparseStore.MergeWith_count A.store B.store st hst
  rw [hst]
  refine ⟨rfl, ?_⟩
  simp only [mergePost, outcomeCount, DDSketch.GetCount, SparseStore.TotalCount]
  rw [hcount]
  congr 1
  ring

/-- A sketch holding three observations in bin `2` plus one zero. -/
def mA : DDSketch Unit := ⟨(), ⟨⟨false, [(2, 3)]⟩, 3, 2, 2⟩, 1⟩

/-- A sketch holding five observations in bin `4` plus two zeros. -/
def mB : DDSketch Unit := ⟨(), ⟨⟨false, [(4, 5)]⟩, 5, 4, 4⟩, 2⟩

theorem MergeWith_adds_counts_witness :
    unitOps.equals mA.mapping mB.mapping = true ∧
    mA.store.bins.isNil = false ∧
    (outcomeErr (DDSketch.MergeWith unitOps mA mB) = false ∧
     outcomeCount (DDSketch.MergeWith unitOps mA mB)
       = some (mA.GetCount + mB.GetCount)) :=
  ⟨rfl, rfl, MergeWith_adds_counts unitOps mA mB rfl rfl⟩

theorem find_setEntries_same (es : List (Int × Int)) (k v : Int) :
    (setEntries es k v).find? (fun e => e.fst == k) = some (k, v) := by
  induction es with
  | nil => simp [setEntries]
  | cons e rest ih =>
    by_cases hk : e.fst == k
    · simp [setEntries, hk]
    · simp only [setEntries, hk, Bool.false_eq_true, if_false]
      rw [List.find?_cons_of_neg _ (by simpa using hk)]
      exact ih

/-- The count stored at index `k` (map read of the bins). -/
def binCountAt (k : Int) (s : SparseStore) : Int := s.bins.lookup k

/-- Claim C6 (amended): the store-level `AddWithCount` has no error
path; a negative count is accepted like any nonzero count (the
negative-count error exists at `Bin` construction and at sketch level
instead). Zero count is a no-op; a nonzero count is added to the bin at
the index, and total count, `minIndex` and `maxIndex` are updated. -/
theorem store_AddWithCount_characterization (s : SparseStore) (i n : Int)
    (hwf : s.bins.isNil = false) :
    (exceptErr (NewBin i n) = true ↔ n < 0) ∧
    (n = 0 → s.AddWithCount i n = some s) ∧
    s.AddWithCount i n ≠ none ∧
    (s.AddWithCount i n).map SparseStore.TotalCount = some (s.count + n) ∧
    (n ≠ 0 → (s.AddWithCount i n).map (binCountAt i)
        = some (s.bins.lookup i + n)) ∧
    (n ≠ 0 → (s.AddWithCount i n).map SparseStore.minIndex
        = some (if i < s.minIndex then i else s.minIndex)) ∧
    (n ≠ 0 → (s.AddWithCount i n).map SparseStore.maxIndex
        = some (if i > s.maxIndex then i else s.maxIndex)) := by
  have hbin : exceptErr (NewBin i n) = true ↔ n < 0 := by
    by_cases hn : n < 0 <;> simp [NewBin, hn, exceptErr]
  by_cases hn : n = 0
  · subst hn
    have key : s.AddWithCount i 0 = some s := by
      rw [SparseStore.AddWithCount, if_pos (by decide)]
    rw [key]
    refine ⟨hbin, fun _ => rfl, by simp, ?_, ?_, ?_, ?_⟩
    · simp [SparseStore.TotalCount]
    · intro hne
      exact absurd rfl hne
    · intro hne
      exact absurd rfl hne
    · intro hne
      exact absurd rfl hne
  · rw [SparseStore.AddWithCount_of_wf s i n hwf hn]
    refine ⟨hbin, fun h => absurd h hn, by simp, ?_, ?_, ?_, ?_⟩
    · rfl
    · intro _
      simp only [Option.map, binCountAt, GoMap.lookup, find_setEntries_same]
    · intro _
      rfl
    · intro _
      rfl

theorem store_AddWithCount_characterization_witness :
    emptyWFStore.bins.isNil = false ∧
    ((exceptErr (NewBin 3 2) = true ↔ (2 : Int) < 0) ∧
     ((2 : Int) = 0 → emptyWFStore.AddWithCount 3 2 = some emptyWFStore) ∧
     emptyWFStore.AddWithCount 3 2 ≠ none ∧
     (emptyWFStore.AddWithCount 3 2).map SparseStore.TotalCount
       = some (emptyWFStore.count + 2) ∧
     ((2 : Int) ≠ 0 → (emptyWFStore.AddWithCount 3 2).map (binCountAt 3)
         = some (emptyWFStore.bins.lookup 3 + 2)) ∧
     ((2 : Int) ≠ 0 → (emptyWFStore.AddWithCount 3 2).map SparseStore.minIndex
         = some (if (3 : Int) < emptyWFStore.minIndex then 3
             else emptyWFStore.minIndex)) ∧
     ((2 : Int) ≠ 0 → (emptyWFStore.AddWithCount 3 2).map SparseStore.maxIndex
         = some (if (3 : Int) > emptyWFStore.maxIndex then 3
             else emptyWFStore.maxIndex))) :=
  ⟨rfl, store_AddWithCount_characterization emptyWFStore 3 2 rfl⟩

theorem DDSketch.AddWithCount_success_shape {M : Type} (ops : MappingOps M)
    (s s' : DDSketch M) (v : Fl) (c : Int)
    (h : DDSketch.AddWithCount ops s v c = some (none, s')) :
    0 ≤ c ∧ s'.zeroCount + s'.store.count = s.zeroCount + s.store.count + c ∧
    s.zeroCount ≤ s'.zeroCount ∧ s.store.count ≤ s'.store.count := by
  rw [DDSketch.AddWithCount] at h
  by_cases h1 : (Fl.lt v (Fl.val 0) || Fl.gt v (ops.maxIndexableValue s.mapping)) = true
  · rw [if_pos h1] at h
    simp at h
  · rw [if_neg h1] at h
    by_cases h2 : c < 0
    · rw [if_pos h2] at h
      simp at h
    · rw [if_neg h2] at h
      by_cases h3 : Fl.gt v (ops.minIndexableValue s.mapping) = true
      · rw [if_pos h3] at h
        cases hst : s.store.AddWithCount (ops.index s.mapping v) c with
        | none =>
          rw [hst] at h
          simp at h
        | some st =>
          rw [hst] at h
          obtain heq := Option.some.inj h
          have hs' : withStore s st = s' := congrArg Prod.snd heq
          subst hs'
          have hcnt := SparseStore.AddWithCount_count s.store st _ _ hst
          refine ⟨by omega, ?_, ?_, ?_⟩ <;> simp only [withStore] <;> omega
      · rw [if_neg h3] at h
        obtain heq := Option.some.inj h
        have hs' : (⟨s.mapping, s.store, s.zeroCount + c⟩ : DDSketch M) = s' :=
          congrArg Prod.snd heq
        subst hs'
        refine ⟨by omega, ?_, ?_, ?_⟩ <;> simp <;> omega

theorem DDSketch.MergeWith_success_shape {M : Type} (ops : MappingOps M)
    (s o s' : DDSketch M)
    (h : DDSketch.MergeWith ops s o = some (none, s')) :
    s'.zeroCount = s.zeroCount + o.zeroCount ∧
    s'.store.count = s.store.count + o.store.count := by
  rw [DDSketch.MergeWith] at h
  by_cases hEq : ops.equals s.mapping o.mapping = true
  · rw [hEq] at h
    simp only [Bool.not_true, Bool.false_eq_true, if_false] at h
    cases hst : s.store.MergeWith o.store with
    | none =>
      rw [hst] at h
      simp at h
    | some st =>
      rw [hst] at h
      obtain heq := Option.some.inj h
      have hs' : (⟨s.mapping, st, s.zeroCount + o.zeroCount⟩ : DDSketch M) = s' :=
        congrArg Prod.snd heq
      subst hs'
      exact ⟨rfl, SparseStore.MergeWith_count s.store o.store st hst⟩
  · have hf : ops.equals s.mapping o.mapping = false :=
      Bool.not_eq_true _ ▸ Bool.of_not_eq_true hEq
    rw [hf] at h
    simp at h

theorem reachable_counts_nonneg {M : Type} (ops : MappingOps M)
    (s : DDSketch M) (h : Reachable ops s) :
    0 ≤ s.zeroCount ∧ 0 ≤ s.store.count := by
  induction h with
  | new m => constructor <;> norm_num [NewDDSketch, NewSparseStore]
  | add s s' v c hr heq ih =>
    obtain ⟨hc, hsum, hm1, hm2⟩ :=
      DDSketch.AddWithCount_success_shape ops s s' v c heq
    exact ⟨le_trans ih.1 hm1, le_trans ih.2 hm2⟩
  | merge s o s' hr ho heq ihs iho =>
    obtain ⟨h1, h2⟩ := DDSketch.MergeWith_success_shape ops s o s' heq
    constructor
    · rw [h1]
      exact add_nonneg ihs.1 iho.1
    · rw [h2]
      exact add_nonneg ihs.2 iho.2

/-- Claim C10: in every sketch state reachable from a newly constructed
sketch by successful `Add` / `AddWithCount` / `MergeWith` calls,
`IsEmpty()` is true exactly when `GetCount()` (that is,
`zeroCount + store.TotalCount()`) is `0`, and `GetCount()` is
non-negative. -/
theorem reachable_IsEmpty_iff_GetCount_zero {M : Type} (ops : MappingOps M)
    (s : DDSketch M) (h : Reachable ops s) :
    (s.IsEmpty = true ↔ s.GetCount = 0) ∧ 0 ≤ s.GetCount := by
  obtain ⟨h1, h2⟩ := reachable_counts_nonneg ops s h
  simp only [DDSketch.IsEmpty, DDSketch.GetCount, SparseStore.IsEmpty,
    SparseStore.TotalCount, Bool.and_eq_true, beq_iff_eq]
  omega

/-- The sketch reached by adding two zero-valued observations to a new
sketch. -/
def skTwo : DDSketch Unit := ⟨(), NewSparseStore, 2⟩

theorem reachable_IsEmpty_iff_GetCount_zero_witness :
    Reachable unitOps skTwo ∧
    ((skTwo.IsEmpty = true ↔ skTwo.GetCount = 0) ∧ 0 ≤ skTwo.GetCount) := by
  have hr : Reachable unitOps skTwo :=
    Reachable.add (NewDDSketch () NewSparseStore) skTwo (Fl.val 0) 2
      (Reachable.new ()) (by decide)
  exact ⟨hr, reachable_IsEmpty_iff_GetCount_zero unitOps skTwo hr⟩
